import Mathlib

set_option autoImplicit false

/-!
Shallow embedding of the gossa SSA interpreter core: the top-level runner
(`Interp.Run`), the defer/panic machinery (`frame.runDefers`, `doRecover`),
the map-lookup, nil-comparison, select and slice instruction steps, the
register allocator (`Function.regIndex`), and the shift-amount conversion
(`asUint64`).  Each Lean definition is translated from the corresponding Go
function; theorems settle the spec claims about them.
-/

namespace GossaSpec

/-- Boxed runtime values of the interpreter (`value = interface{}`), reduced
to the variants the claims exercise.  `nilV` is the Go `nil` interface. -/
inductive GoValue where
  | nilV
  | intV (n : Int)
  | boolV (b : Bool)
  | strV (s : String)
  | errV (s : String)
  deriving DecidableEq

/-- The panic payload types the interpreter raises and classifies:
`exitPanic` (os.Exit), `targetPanic` (program called panic), `runtime.Error`
and the local `runtimeError` (both carried as `runtimeErr`), raw `string`
panics, and `plainError`. -/
inductive PanicValue where
  | exitPanic (code : Int)
  | targetPanic (v : GoValue)
  | runtimeErr (msg : String)
  | stringPanic (s : String)
  | plainErr (s : String)
  deriving DecidableEq

/-- The error kinds `Interp.Run`'s top-level recover handler produces. -/
inductive GoError where
  | targetPanicErr (v : GoValue)
  | runtimeErrE (msg : String)
  | plainErrE (s : String)
  | noFunction (entry : String)
  deriving DecidableEq

/-- Outcome of `i.call(nil, mainFn, nil, nil)`: either a normal return or a
panic propagating to `Run`'s deferred handler. -/
inductive CallOutcome where
  | normal
  | panics (p : PanicValue)
  deriving DecidableEq

/-- The `switch p := recover().(type)` in `Interp.Run`'s deferred handler,
applied when the entry call panicked (so `exitCode` still holds its initial
value 2): `exitPanic` overwrites the exit code and leaves `err` nil; every
other panic kind leaves exit code 2 and fills `err`. -/
def classifyRunPanic : PanicValue → Int × Option GoError
  | .exitPanic n => (n, none)
  | .targetPanic v => (2, some (.targetPanicErr v))
  | .runtimeErr m => (2, some (.runtimeErrE m))
  | .stringPanic s => (2, some (.plainErrE s))
  | .plainErr s => (2, some (.plainErrE s))

/-- `Interp.Run(entry)`: `exitCode` starts at 2; if `mainpkg.Func(entry)` is
missing it becomes 1 with a "no function" error; if the call returns
normally it becomes 0; a panic is classified by the deferred handler unless
the `DisableRecover` mode bit is set, in which case the handler returns
without recovering and the panic escapes `Run` (modelled as `.error`). -/
def interpRun (disableRecover : Bool) (hasFunc : String → Bool) (entry : String)
    (outcome : CallOutcome) : Except PanicValue (Int × Option GoError) :=
  if hasFunc entry then
    match outcome with
    | .normal => .ok (0, none)
    | .panics p => if disableRecover then .error p else .ok (classifyRunPanic p)
  else
    .ok (1, some (.noFunction entry))

/-- Net effect of one deferred call on the frame's `panicking` record
(`frame.runDefer`): return normally leaving it alone, clear it by a
successful `recover()`, or replace it with a fresh panic. -/
inductive DeferOutcome where
  | completes
  | recovers
  | panicsWith (p : PanicValue)
  deriving DecidableEq

/-- A deferred-call record (`deferred`), reduced to an id and its effect;
the `tail` pointer is the tail of the frame's list. -/
structure DeferCall where
  fnId : Nat
  outcome : DeferOutcome
  deriving DecidableEq

/-- A frame's defer chain and its `panicking` record.  `defers` head is the
most recently pushed record, as in the source's singly-linked list. -/
structure DFrame where
  defers : List DeferCall
  panicking : Option PanicValue
  deriving DecidableEq

/-- The `*ssa.Defer` step: `fr.defers = &deferred{..., tail: fr.defers}`. -/
def pushDefer (fr : DFrame) (d : DeferCall) : DFrame :=
  { fr with defers := d :: fr.defers }

/-- `frame.runDefer`: runs one deferred call; always returns normally but
may set or clear `fr.panicking`. -/
def runDefer (p : Option PanicValue) (d : DeferCall) : Option PanicValue :=
  match d.outcome with
  | .completes => p
  | .recovers => none
  | .panicsWith q => some q

/-- The loop body of `frame.runDefers`: `for d := fr.defers; d != nil;
d = d.tail { fr.runDefer(d) }`, collecting the execution order. -/
def runDefersExec (p : Option PanicValue) : List DeferCall → List Nat × Option PanicValue
  | [] => ([], p)
  | d :: ds =>
      let p' := runDefer p d
      let r := runDefersExec p' ds
      (d.fnId :: r.1, r.2)

/-- `frame.runDefers`: runs the chain in list (LIFO) order, then re-panics
if a panic is still pending. -/
def runDefersD (fr : DFrame) : List Nat × Except PanicValue Unit :=
  let r := runDefersExec fr.panicking fr.defers
  (r.1, match r.2 with
        | some p => .error p
        | none => .ok ())

/-- C1: for a run through `Interp.Run(entry)` (default mode): entry exists
and the call returns normally → exit code 0; entry missing → exit code 1
with an error; `os.Exit(n)` routed through `exitPanic` → exit code n; an
uncaught panic reaching the top level → exit code 2 with the panic carried
as the returned error. -/
theorem interpRun_exit_code_mapping (hasFunc : String → Bool) (entry : String)
    (oc : CallOutcome) (n : Int) (gv : GoValue) (m s t : String) :
    (hasFunc entry = true →
      interpRun false hasFunc entry .normal = .ok (0, none))
  ∧ (hasFunc entry = false →
      interpRun false hasFunc entry oc = .ok (1, some (.noFunction entry)))
  ∧ (hasFunc entry = true →
      interpRun false hasFunc entry (.panics (.exitPanic n)) = .ok (n, none))
  ∧ (hasFunc entry = true →
      interpRun false hasFunc entry (.panics (.targetPanic gv)) = .ok (2, some (.targetPanicErr gv)))
  ∧ (hasFunc entry = true →
      interpRun false hasFunc entry (.panics (.runtimeErr m)) = .ok (2, some (.runtimeErrE m)))
  ∧ (hasFunc entry = true →
      interpRun false hasFunc entry (.panics (.stringPanic s)) = .ok (2, some (.plainErrE s)))
  ∧ (hasFunc entry = true →
      interpRun false hasFunc entry (.panics (.plainErr t)) = .ok (2, some (.plainErrE t))) := by
  refine ⟨?_, ?_, ?_, ?_, ?_, ?_, ?_⟩ <;>
    intro h <;> simp [interpRun, classifyRunPanic, h]

/-- Witness for C1's theorem at concrete inputs: entry present and normal
return gives exit code 0; entry absent gives exit code 1 with an error. -/
theorem interpRun_exit_code_mapping_witness :
    interpRun false (fun _ => true) "main" .normal = .ok (0, none)
  ∧ interpRun false (fun _ => false) "main" .normal = .ok (1, some (.noFunction "main")) :=
  ⟨(interpRun_exit_code_mapping (fun _ => true) "main" .normal 0 .nilV "" "" "").1 rfl,
   (interpRun_exit_code_mapping (fun _ => false) "main" .normal 0 .nilV "" "" "").2.1 rfl⟩

/-- C2: a frame that registers deferred calls f1, f2, f3 in that order runs
them in exactly the reverse order f3, f2, f1, and the execution order is
the same whatever the frame's `panicking` state (and whatever each deferred
call itself does). -/
theorem runDefers_lifo (f1 f2 f3 : DeferCall) (p : Option PanicValue) :
    (runDefersD (pushDefer (pushDefer (pushDefer ⟨[], p⟩ f1) f2) f3)).1
      = [f3.fnId, f2.fnId, f1.fnId] := by
  simp [runDefersD, pushDefer, runDefersExec]

/-- The caller's caller frame as seen by `doRecover`: only its `panicking`
record matters. -/
structure CallerFrame where
  panicking : Option PanicValue
  deriving DecidableEq

/-- The frame `c` passed to `doRecover(caller)`: its own `panicking` record
and its caller link. -/
structure RFrame where
  panicking : Option PanicValue
  caller : Option CallerFrame
  deriving DecidableEq

/-- The guard of `doRecover` (with the mode bit aside): `caller.panicking ==
nil && caller.caller != nil && caller.caller.panicking != nil`. -/
def recoverCond (c : RFrame) : Bool :=
  c.panicking.isNone &&
    (match c.caller with
     | some k => k.panicking.isSome
     | none => false)

/-- The `switch p := p.(type)` projection in `doRecover`: the value
`recover()` hands back for each recovered panic kind.  An `exitPanic`
falls into the `default:` branch, which makes the interpreter itself
panic ("unexpected panic type"), modelled as `none`. -/
def panicToValue : PanicValue → Option GoValue
  | .targetPanic v => some v
  | .runtimeErr m => some (.errV ("runtime error: " ++ m))
  | .stringPanic s => some (.strV s)
  | .plainErr s => some (.errV s)
  | .exitPanic _ => none

/-- `caller.caller.panicking = nil`: the consumed state. -/
def clearCallerPanic (c : RFrame) : RFrame :=
  { c with caller := (c.caller).map (fun _ => ⟨none⟩) }

/-- `doRecover(caller)`: returns the recovered value and the updated frame;
`.error` models the interpreter's own panic on an unexpected panic type. -/
def doRecover (disableRecover : Bool) (c : RFrame) : Except String (GoValue × RFrame) :=
  if disableRecover = false ∧ recoverCond c = true then
    match c.caller with
    | some k =>
        match k.panicking with
        | some p =>
            match panicToValue p with
            | some v => .ok (v, clearCallerPanic c)
            | none => .error "unexpected panic type in target call to recover()"
        | none => .ok (.nilV, c)
    | none => .ok (.nilV, c)
  else
    .ok (.nilV, c)

/-- C3 counterexample: with the caller's caller panicking on the program's
`panic(nil)` (a `targetPanic` carrying the nil value), `doRecover` returns
nil even though the recover condition holds, so "returns a non-nil value
exactly when `c.panicking` is nil and `c.caller.panicking` is non-nil" is
false as stated. -/
theorem doRecover_nonnil_iff_false :
    ¬ (∀ (c : RFrame) (v : GoValue) (fr : RFrame),
        doRecover false c = .ok (v, fr) → (v ≠ GoValue.nilV ↔ recoverCond c = true)) := by
  intro h
  have h0 := h ⟨none, some ⟨some (.targetPanic .nilV)⟩⟩ .nilV
      ⟨none, some ⟨none⟩⟩ rfl
  exact (h0.mpr rfl) rfl

/-- C3 (amended): `doRecover` can return a non-nil value only when the
frame satisfies the recover condition (its own `panicking` nil, its
caller's caller panicking); when the condition fails it returns nil and
leaves every panicking record unchanged; when the condition holds the
panic record is consumed and the projected panic value returned — that
value is nil exactly when the program panicked with the nil value. -/
theorem doRecover_scope (c : RFrame) (v : GoValue) (fr : RFrame)
    (h : doRecover false c = .ok (v, fr)) :
    (v ≠ GoValue.nilV → recoverCond c = true)
  ∧ (recoverCond c = false → v = GoValue.nilV ∧ fr = c)
  ∧ (recoverCond c = true → fr = clearCallerPanic c ∧
      ∃ k p, c.caller = some k ∧ k.panicking = some p ∧ panicToValue p = some v)
  ∧ (recoverCond c = true →
      (v = GoValue.nilV ↔
        (∃ k, c.caller = some k ∧ k.panicking = some (.targetPanic .nilV)))) := by
  by_cases hc : recoverCond c = true
  · rcases c with ⟨cp, ck⟩
    rcases cp with _ | p0
    swap
    · simp [recoverCond] at hc
    rcases ck with _ | ⟨kp⟩
    · simp [recoverCond] at hc
    rcases kp with _ | p
    · simp [recoverCond] at hc
    have hd : doRecover false ⟨none, some ⟨some p⟩⟩
        = match panicToValue p with
          | some w => Except.ok (w, clearCallerPanic ⟨none, some ⟨some p⟩⟩)
          | none => Except.error "unexpected panic type in target call to recover()" := rfl
    rw [hd] at h
    rcases hp : panicToValue p with _ | pv
    · rw [hp] at h
      exact absurd h (by simp)
    · rw [hp] at h
      simp only [Except.ok.injEq, Prod.mk.injEq] at h
      obtain ⟨hv, hfr⟩ := h
      refine ⟨fun _ => hc, fun hcf => by simp [hc] at hcf,
        fun _ => ⟨hfr.symm, ⟨some p⟩, p, rfl, rfl, by rw [hp, hv]⟩, fun _ => ?_⟩
      constructor
      · intro hv0
        subst hv0
        rcases p with n | gv | m | s | s <;> simp [panicToValue] at hp
        · exact ⟨⟨some (.targetPanic gv)⟩, rfl, by simp_all⟩
        all_goals simp_all
      · rintro ⟨k, hk, hkp⟩
        cases hk
        have hps : p = PanicValue.targetPanic GoValue.nilV := by simpa using hkp
        subst hps
        simp [panicToValue] at hp
        simp_all
  · have hcf : recoverCond c = false := by simpa using hc
    have hd : doRecover false c = .ok (.nilV, c) := by
      unfold doRecover
      simp [hcf]
    rw [hd] at h
    simp only [Except.ok.injEq, Prod.mk.injEq] at h
    obtain ⟨hv, hfr⟩ := h
    exact ⟨fun hne => absurd hv.symm hne, fun _ => ⟨hv.symm, hfr.symm⟩,
      fun hct => by simp [hcf] at hct, fun hct => by simp [hcf] at hct⟩

/-- Witness for C3's amended theorem at a concrete frame: a deferred call
whose caller's caller is panicking on the string panic "boom" recovers the
string and consumes the record. -/
theorem doRecover_scope_witness :
    recoverCond ⟨none, some ⟨some (.stringPanic "boom")⟩⟩ = true ∧
    ∃ k p, (RFrame.mk none (some ⟨some (.stringPanic "boom")⟩)).caller = some k ∧
      k.panicking = some p ∧ panicToValue p = some (GoValue.strV "boom") :=
  ⟨rfl,
   ((doRecover_scope ⟨none, some ⟨some (.stringPanic "boom")⟩⟩ (.strV "boom")
      ⟨none, some ⟨none⟩⟩ rfl).2.2.1 rfl).2⟩

/-- C10: with the `DisableRecover` mode bit set, `doRecover` returns nil
and leaves every panicking record untouched, whatever the frame chain's
panicking state, so the panic always propagates. -/
theorem doRecover_disableRecover (c : RFrame) :
    doRecover true c = .ok (.nilV, c) := by
  simp [doRecover]

/-- `vm.MapIndex(reflect.ValueOf(idx))` on the map's entries: association
lookup returning an invalid (absent) value as `none`. -/
def mapIndex {K V : Type} [DecidableEq K] : List (K × V) → K → Option V
  | [], _ => none
  | (k', v) :: rest, k => if k' = k then some v else mapIndex rest k

/-- The value a `*ssa.Lookup` step stores: a bare value, or a
(value, ok) tuple in the CommaOk form. -/
inductive LookupResult (V : Type) where
  | single (v : V)
  | withOk (v : V) (ok : Bool)
  deriving DecidableEq

/-- The `*ssa.Lookup` map case of `makeInstr`: `v := vm.MapIndex(k)`;
`ok := v.IsValid()`; an absent key yields the element type's zero value
(`reflect.New(typ.Elem()).Elem()`); CommaOk wraps the pair in a tuple. -/
def lookupStep {K V : Type} [DecidableEq K] (commaOk : Bool) (zeroElem : V)
    (m : List (K × V)) (k : K) : LookupResult V :=
  let r := mapIndex m k
  let rv := r.getD zeroElem
  if commaOk then .withOk rv r.isSome else .single rv

/-- C4: for `v, ok := m[k]` compiled with CommaOk: an absent key yields the
element type's zero value and `ok = false`; a present key yields the stored
value and `ok = true`. -/
theorem lookup_commaOk {K V : Type} [DecidableEq K] (m : List (K × V)) (k : K) (z : V) :
    (mapIndex m k = none → lookupStep true z m k = .withOk z false)
  ∧ (∀ v, mapIndex m k = some v → lookupStep true z m k = .withOk v true) := by
  constructor
  · intro h
    simp [lookupStep, h]
  · intro v h
    simp [lookupStep, h]

/-- Witness for C4's theorem on the concrete map {1 ↦ 10}: key 2 is absent
(zero value 0, ok false), key 1 is present (value 10, ok true). -/
theorem lookup_commaOk_witness :
    lookupStep true (0 : Int) [((1 : Int), (10 : Int))] 2 = .withOk 0 false
  ∧ lookupStep true (0 : Int) [((1 : Int), (10 : Int))] 1 = .withOk 10 true :=
  ⟨(lookup_commaOk [((1 : Int), (10 : Int))] 2 0).1 (by decide),
   (lookup_commaOk [((1 : Int), (10 : Int))] 1 0).2 10 (by decide)⟩

/-- The reflect kinds the nil-comparison code distinguishes.  In this
interpreter values are boxed as bare interfaces, so `reflect.ValueOf` of a
nil interface yields kind `invalid`; the `iface` kind is kept because
`IsNil`'s switch lists `reflect.Interface`. -/
inductive RKind where
  | invalid
  | slice
  | mapK
  | funcK
  | chanK
  | ptr
  | uptr
  | iface
  | intK
  | boolK
  | stringK
  deriving DecidableEq

/-- A reflected value (`reflect.Value`) over the kinds above, with the
nilability flag (`v.IsNil()`) for the nil-able kinds and an identity for
pointers/channels. -/
inductive RValue where
  | invalidV
  | sliceV (isNil : Bool) (id : Nat)
  | mapV (isNil : Bool) (id : Nat)
  | funcV (isNil : Bool) (id : Nat)
  | chanV (isNil : Bool) (id : Nat)
  | ptrV (isNil : Bool) (addr : Nat)
  | uptrV (isNil : Bool) (addr : Nat)
  | ifaceV (isNil : Bool) (id : Nat)
  | rintV (n : Int)
  | rboolV (b : Bool)
  | rstrV (s : String)
  deriving DecidableEq

/-- `v.Kind()`. -/
def rkind : RValue → RKind
  | .invalidV => .invalid
  | .sliceV _ _ => .slice
  | .mapV _ _ => .mapK
  | .funcV _ _ => .funcK
  | .chanV _ _ => .chanK
  | .ptrV _ _ => .ptr
  | .uptrV _ _ => .uptr
  | .ifaceV _ _ => .iface
  | .rintV _ => .intK
  | .rboolV _ => .boolK
  | .rstrV _ => .stringK

/-- The `v.IsNil()` flag of a nil-able reflected value. -/
def rIsNilFlag : RValue → Bool
  | .sliceV b _ => b
  | .mapV b _ => b
  | .funcV b _ => b
  | .chanV b _ => b
  | .ptrV b _ => b
  | .uptrV b _ => b
  | .ifaceV b _ => b
  | _ => false

/-- `IsNil(v reflect.Value)`: invalid kind is nil; slice/map/func and
chan/ptr/unsafe-pointer/interface report `v.IsNil()`; anything else is
not nil. -/
def IsNil (v : RValue) : Bool :=
  match rkind v with
  | .invalid => true
  | .slice | .mapK | .funcK => rIsNilFlag v
  | .chanK | .ptr | .uptr | .iface => rIsNilFlag v
  | _ => false

/-- `equalValue(vx, vy)`: kind-gated equality — pointers by address,
channels by interface identity, the scalar kinds by value (struct/array
recursion is outside this reduced domain). -/
def equalValue (vx vy : RValue) : Bool :=
  if rkind vx = rkind vy then
    match vx, vy with
    | .invalidV, .invalidV => true
    | .ptrV _ ax, .ptrV _ ay => ax = ay
    | x, y => x = y
  else false

/-- `opEQL(instr, x, y)`: mismatched reflect kinds compare unequal; if one
SSA operand is a constant nil (`IsConstNil`), the result is `IsNil` of the
other's reflected value; otherwise `equalValue`. -/
def opEQL (xConstNil yConstNil : Bool) (vx vy : RValue) : Bool :=
  if rkind vx ≠ rkind vy then false
  else if xConstNil then IsNil vy
  else if yConstNil then IsNil vx
  else equalValue vx vy

/-- C5 counterexample: for `var v interface{} = []int(nil); v == nil` the
nil constant is boxed as a nil interface (reflect kind `invalid`) while
`v`'s reflected value is a nil slice, so the kinds differ and `opEQL`
returns false even though the other operand is nil-kinded — the claimed
"true iff nil-kinded" equivalence fails. -/
theorem opEQL_nil_counterexample :
    ¬ (opEQL false true (RValue.sliceV true 0) RValue.invalidV = true
        ↔ IsNil (RValue.sliceV true 0) = true) := by
  decide

/-- C5 (amended): when one operand of `==` is a constant nil, the result
is true iff the two reflected values have the same kind and the other
operand's reflected value is nil-kinded (nil slice/map/func/chan/pointer/
unsafe-pointer/interface, or the invalid kind of a nil interface). -/
theorem opEQL_constNil (vx vy : RValue) :
    (opEQL true false vx vy = (decide (rkind vx = rkind vy) && IsNil vy))
  ∧ (opEQL false true vx vy = (decide (rkind vx = rkind vy) && IsNil vx)) := by
  constructor <;>
  · by_cases hk : rkind vx = rkind vy <;> simp [opEQL, hk]

/-- SSA values as `regIndex` discriminates them: constants, globals,
functions (with or without blocks), and ordinary instruction results. -/
inductive SSAVal where
  | constV (id : Nat)
  | globalV (id : Nat)
  | funcV (id : Nat) (hasBlocks : Bool)
  | instrV (id : Nat)
  deriving DecidableEq

/-- The static kind assigned by `regIndex`'s type switch: 0 invalid
(frame-local), 1 `kindConst`, 2 `kindGlobal`, 3 `kindFunction`; a
declaration-only function (no blocks) stays frame-local. -/
def regKind : SSAVal → Nat
  | .constV _ => 1
  | .globalV _ => 2
  | .funcV _ hasBlocks => if hasBlocks then 3 else 0
  | .instrV _ => 0

/-- `Register(len(p.Interp.stack) | int(vk<<24))` truncated to uint32. -/
def encodeReg (idx kindv : Nat) : Nat :=
  (Nat.lor idx (kindv <<< 24)) % 2 ^ 32

/-- The compilation state `regIndex` reads and writes: the interpreter's
static stack and index, the function-local index, and the function's
frame-slot counter `nstack`.  A static slot is tagged by the SSA value
whose pre-evaluated result it holds. -/
structure CompState where
  interpStack : List SSAVal
  interpIndex : List (SSAVal × Nat)
  localIndex : List (SSAVal × Nat)
  nstack : Nat
  deriving DecidableEq

/-- Association-list lookup standing for the Go map accesses. -/
def assocFind (l : List (SSAVal × Nat)) (v : SSAVal) : Option Nat :=
  match l with
  | [] => none
  | (k, r) :: rest => if k = v then some r else assocFind rest v

/-- `Function.regIndex`: consult the interpreter-wide index, then the
function-local index; otherwise pre-evaluate statics (const/global/
function-with-blocks) onto the interpreter stack and record the encoded
register, or hand out the next frame-local slot. -/
def regIndex (s : CompState) (v : SSAVal) : Nat × CompState :=
  match assocFind s.interpIndex v with
  | some r => (r, s)
  | none =>
    match assocFind s.localIndex v with
    | some r => (r, s)
    | none =>
      let vk := regKind v
      if vk ≠ 0 then
        let reg := encodeReg s.interpStack.length vk
        (reg, { s with interpStack := s.interpStack ++ [v],
                       interpIndex := (v, reg) :: s.interpIndex })
      else
        let reg := s.nstack
        (reg, { s with nstack := s.nstack + 1,
                       localIndex := (v, reg) :: s.localIndex })

/-- The two-tier lookup `regIndex` performs before allocating: the
interpreter-wide index first, then the function-local index. -/
def indexedReg (s : CompState) (v : SSAVal) : Option Nat :=
  match assocFind s.interpIndex v with
  | some r => some r
  | none => assocFind s.localIndex v

/-- A compilation run: the states produced by a sequence of `regIndex`
calls on arbitrary SSA values. -/
def regIndexMany (s : CompState) (ws : List SSAVal) : CompState :=
  ws.foldl (fun st w => (regIndex st w).2) s

/-- A value present in one of the two indices is returned from there, with
the recorded register and no state change. -/
theorem regIndex_of_indexed (s : CompState) (v : SSAVal) (r : Nat)
    (h : indexedReg s v = some r) : regIndex s v = (r, s) := by
  rcases h1 : assocFind s.interpIndex v with _ | r1 <;>
    simp [indexedReg, h1] at h <;>
    simp [regIndex, h1, h]

/-- Every branch of `regIndex` records the returned register for `v` in the
interpreter-wide or the function-local index. -/
theorem regIndex_indexed_after (s : CompState) (v : SSAVal) :
    indexedReg (regIndex s v).2 v = some (regIndex s v).1 := by
  rcases h1 : assocFind s.interpIndex v with _ | r1
  · rcases h2 : assocFind s.localIndex v with _ | r2
    · by_cases hk : regKind v ≠ 0
      · simp [regIndex, indexedReg, h1, h2, hk, assocFind]
      · simp [regIndex, indexedReg, h1, h2, hk, assocFind]
    · simp [regIndex, indexedReg, h1, h2]
  · simp [regIndex, indexedReg, h1]

/-- A `regIndex` call on any value `w` preserves `v`'s index entry: the
call either changes nothing or conses an entry for a value that was not
yet indexed, which cannot shadow `v`. -/
theorem regIndex_indexed_mono (s : CompState) (v w : SSAVal) (r : Nat)
    (h : indexedReg s v = some r) :
    indexedReg (regIndex s w).2 v = some r := by
  rcases h1 : assocFind s.interpIndex w with _ | r1
  · rcases h2 : assocFind s.localIndex w with _ | r2
    · have hwv : w ≠ v := by
        rintro rfl
        simp [indexedReg, h1, h2] at h
      by_cases hk : regKind w ≠ 0
      · simpa [regIndex, indexedReg, h1, h2, hk, assocFind, hwv] using h
      · simpa [regIndex, indexedReg, h1, h2, hk, assocFind, hwv] using h
    · simp only [regIndex, h1, h2]
      exact h
  · simp only [regIndex, h1]
    exact h

/-- An indexed entry survives a whole sequence of `regIndex` calls. -/
theorem regIndexMany_indexed_mono (v : SSAVal) (r : Nat) :
    ∀ (ws : List SSAVal) (s : CompState), indexedReg s v = some r →
      indexedReg (regIndexMany s ws) v = some r := by
  intro ws
  induction ws with
  | nil =>
    intro s h
    simpa [regIndexMany] using h
  | cons w ws ih =>
    intro s h
    have h1 := regIndex_indexed_mono s v w r h
    have h2 := ih ((regIndex s w).2) h1
    simpa [regIndexMany] using h2

/-- C6: `regIndex` is stable across a whole compilation — after the first
call on an SSA value `v` assigns it a register, every later call on `v`,
with arbitrarily many intervening `regIndex` calls on other values, hits
the interpreter-wide or function-local index and returns the register
assigned by the first call without allocating a new slot (the state is
unchanged). -/
theorem regIndex_second_and_later_calls (s : CompState) (v : SSAVal) (ws : List SSAVal) :
    indexedReg (regIndexMany (regIndex s v).2 ws) v = some (regIndex s v).1
  ∧ regIndex (regIndexMany (regIndex s v).2 ws) v
      = ((regIndex s v).1, regIndexMany (regIndex s v).2 ws) := by
  have h0 := regIndex_indexed_after s v
  have h1 := regIndexMany_indexed_mono v (regIndex s v).1 ws (regIndex s v).2 h0
  exact ⟨h1, regIndex_of_indexed _ v _ h1⟩

/-- The integer variants `asUint64`'s type switch distinguishes (host int
and uintptr are 64-bit). -/
inductive NumValue where
  | intV (n : Int)
  | int8V (n : Int)
  | int16V (n : Int)
  | int32V (n : Int)
  | int64V (n : Int)
  | uintV (n : Nat)
  | uint8V (n : Nat)
  | uint16V (n : Nat)
  | uint32V (n : Nat)
  | uint64V (n : Nat)
  | uintptrV (n : Nat)
  deriving DecidableEq

/-- Whether the variant is one of the signed cases. -/
def numIsSigned : NumValue → Bool
  | .intV _ | .int8V _ | .int16V _ | .int32V _ | .int64V _ => true
  | _ => false

/-- The carried integer value. -/
def numVal : NumValue → Int
  | .intV n | .int8V n | .int16V n | .int32V n | .int64V n => n
  | .uintV n | .uint8V n | .uint16V n | .uint32V n | .uint64V n | .uintptrV n => n

/-- Bit width of the variant. -/
def numWidth : NumValue → Nat
  | .int8V _ | .uint8V _ => 8
  | .int16V _ | .uint16V _ => 16
  | .int32V _ | .uint32V _ => 32
  | _ => 64

/-- `asUint64(x)`: unsigned values widen to uint64; a non-negative signed
value widens; a negative signed value panics with the runtime error
"negative shift amount". -/
def asUint64 (x : NumValue) : Except String Nat :=
  match x with
  | .intV n | .int8V n | .int16V n | .int32V n | .int64V n =>
      if 0 ≤ n then .ok n.toNat else .error "negative shift amount"
  | .uintV n | .uint8V n | .uint16V n | .uint32V n | .uint64V n | .uintptrV n => .ok n

/-- Two's-complement wrap of an integer into `w` signed bits. -/
def wrapSigned (w : Nat) (n : Int) : Int :=
  (n + 2 ^ (w - 1)) % 2 ^ w - 2 ^ (w - 1)

/-- Shift `x` left by `sh` with the host's wrap semantics, preserving the
variant. -/
def shlNum (x : NumValue) (sh : Nat) : NumValue :=
  match x with
  | .intV n => .intV (wrapSigned 64 (n * 2 ^ sh))
  | .int8V n => .int8V (wrapSigned 8 (n * 2 ^ sh))
  | .int16V n => .int16V (wrapSigned 16 (n * 2 ^ sh))
  | .int32V n => .int32V (wrapSigned 32 (n * 2 ^ sh))
  | .int64V n => .int64V (wrapSigned 64 (n * 2 ^ sh))
  | .uintV n => .uintV ((n <<< sh) % 2 ^ 64)
  | .uint8V n => .uint8V ((n <<< sh) % 2 ^ 8)
  | .uint16V n => .uint16V ((n <<< sh) % 2 ^ 16)
  | .uint32V n => .uint32V ((n <<< sh) % 2 ^ 32)
  | .uint64V n => .uint64V ((n <<< sh) % 2 ^ 64)
  | .uintptrV n => .uintptrV ((n <<< sh) % 2 ^ 64)

/-- Shift `x` right by `sh`: arithmetic for signed, logical for unsigned. -/
def shrNum (x : NumValue) (sh : Nat) : NumValue :=
  match x with
  | .intV n => .intV (n >>> sh)
  | .int8V n => .int8V (n >>> sh)
  | .int16V n => .int16V (n >>> sh)
  | .int32V n => .int32V (n >>> sh)
  | .int64V n => .int64V (n >>> sh)
  | .uintV n => .uintV (n >>> sh)
  | .uint8V n => .uint8V (n >>> sh)
  | .uint16V n => .uint16V (n >>> sh)
  | .uint32V n => .uint32V (n >>> sh)
  | .uint64V n => .uint64V (n >>> sh)
  | .uintptrV n => .uintptrV (n >>> sh)

/-- `opSHL(x, _y)`: `y := asUint64(_y)` first, then the per-kind shift. -/
def opSHL (x y : NumValue) : Except String NumValue :=
  (asUint64 y).map (shlNum x)

/-- `opSHR(x, _y)`: `y := asUint64(_y)` first, then the per-kind shift. -/
def opSHR (x y : NumValue) : Except String NumValue :=
  (asUint64 y).map (shrNum x)

/-- C7: the shift amount of `opSHL`/`opSHR` is widened through `asUint64`
to an unsigned 64-bit count (non-negative counts widen to their value), and
a signed negative shift count makes the operation panic with the runtime
error "negative shift amount". -/
theorem shift_amount_widening (x y : NumValue) :
    (numIsSigned y = true → numVal y < 0 →
        opSHL x y = .error "negative shift amount"
      ∧ opSHR x y = .error "negative shift amount")
  ∧ (0 ≤ numVal y → asUint64 y = .ok (numVal y).toNat) := by
  constructor
  · intro hs hn
    rcases y with n | n | n | n | n | n | n | n | n | n | n <;>
      simp [numIsSigned] at hs <;>
      simp [numVal] at hn <;>
      simp [opSHL, opSHR, asUint64, Except.map, not_le.mpr hn]
  · intro hn
    rcases y with n | n | n | n | n | n | n | n | n | n | n <;>
      simp [numVal] at hn <;>
      simp [asUint64, numVal, hn]

/-- Witness for C7's theorem at concrete inputs: shifting `int8(1)` by the
signed count `int(-1)` panics; the count `int(3)` widens to 3. -/
theorem shift_amount_widening_witness :
    (opSHL (.int8V 1) (.intV (-1)) = .error "negative shift amount"
      ∧ opSHR (.int8V 1) (.intV (-1)) = .error "negative shift amount")
  ∧ asUint64 (.intV 3) = .ok 3 :=
  ⟨(shift_amount_widening (.int8V 1) (.intV (-1))).1 (by decide) (by decide),
   (shift_amount_widening (.int8V 1) (.intV 3)).2 (by decide)⟩

/-- The operand shapes `slice` distinguishes after dereferencing a pointer:
a string (cap = len), a slice (len, cap), or an array (cap = len). -/
inductive SliceOperand where
  | strOp (len : Nat)
  | sliceOp (len cap : Nat)
  | arrOp (len : Nat)
  deriving DecidableEq

/-- `v.Len()`. -/
def operandLen : SliceOperand → Nat
  | .strOp l => l
  | .sliceOp l _ => l
  | .arrOp l => l

/-- `v.Cap()` (equal to the length for strings and arrays). -/
def operandCap : SliceOperand → Nat
  | .strOp l => l
  | .sliceOp _ c => c
  | .arrOp l => l

/-- The view `v.Slice`/`v.Slice3` returns: offset into the base, length
and capacity. -/
structure SliceView where
  off : Int
  len : Int
  cap : Int
  deriving DecidableEq

/-- `slice(fr, instr, makesliceCheck, ...)`: defaults lo/hi/max from the
operand, runs the bound checks of the makeslice, three-index or two-index
context with their respective error messages (capacity wording for slice
operands, length wording otherwise), then builds the view; the string case
returns `v.Slice(0, 0)` when `lo == hi`. -/
def sliceStep (x : SliceOperand) (makesliceCheck : Bool)
    (lo? hi? max? : Option Int) : Except String SliceView :=
  let vLen : Int := operandLen x
  let vCap : Int := operandCap x
  let lo := lo?.getD 0
  let hi := hi?.getD vLen
  let mx := max?.getD vCap
  let slice3 := max?.isSome
  let isSliceKind : Bool := match x with
    | .sliceOp _ _ => true
    | _ => false
  let build : Except String SliceView :=
    match x with
    | .strOp _ => if lo = hi then .ok ⟨0, 0, 0⟩ else .ok ⟨lo, hi - lo, hi - lo⟩
    | .sliceOp _ _ => .ok ⟨lo, hi - lo, mx - lo⟩
    | .arrOp _ => .ok ⟨lo, hi - lo, mx - lo⟩
  if makesliceCheck then
    if hi < 0 then .error "makeslice: len out of range"
    else if hi > mx then .error "makeslice: cap out of range"
    else build
  else if slice3 then
    if mx < 0 then .error s!"slice bounds out of range [::{mx}]"
    else if mx > vCap then
      (if isSliceKind then .error s!"slice bounds out of range [::{mx}] with capacity {vCap}"
       else .error s!"slice bounds out of range [::{mx}] with length {vCap}")
    else if hi < 0 then .error s!"slice bounds out of range [:{hi}:]"
    else if hi > mx then .error s!"slice bounds out of range [:{hi}:{mx}]"
    else if lo < 0 then .error s!"slice bounds out of range [{lo}::]"
    else if lo > hi then .error s!"slice bounds out of range [{lo}:{hi}:]"
    else build
  else
    if hi < 0 then .error s!"slice bounds out of range [:{hi}]"
    else if hi > vCap then
      (if isSliceKind then .error s!"slice bounds out of range [:{hi}] with capacity {vCap}"
       else .error s!"slice bounds out of range [:{hi}] with length {vCap}")
    else if lo < 0 then .error s!"slice bounds out of range [{lo}:]"
    else if lo > hi then .error s!"slice bounds out of range [{lo}:{hi}]"
    else build

/-- C8: the slice step validates lo/hi/max against the operand's length
and capacity with distinct error messages in the make-slice, slice and
array contexts (shown at an out-of-range high bound), and for every
operand `x` the expression `x[len(x):]` (lo = hi = len) passes the checks
and produces an empty view — length 0, and offset 0 in the string case
that skips the underlying data entirely. -/
theorem slice_bounds_empty_view (x : SliceOperand) (h : operandLen x ≤ operandCap x) :
    (∃ v, sliceStep x false (some (operandLen x)) none none = .ok v ∧ v.len = 0)
  ∧ sliceStep (.arrOp 10) true none (some 5) (some 3) = .error "makeslice: cap out of range"
  ∧ sliceStep (.sliceOp 3 3) false none (some 5) none
      = .error "slice bounds out of range [:5] with capacity 3"
  ∧ sliceStep (.arrOp 3) false none (some 5) none
      = .error "slice bounds out of range [:5] with length 3"
  ∧ ("makeslice: cap out of range" ≠ "slice bounds out of range [:5] with capacity 3"
      ∧ ("slice bounds out of range [:5] with capacity 3"
          ≠ "slice bounds out of range [:5] with length 3")
      ∧ "makeslice: cap out of range" ≠ "slice bounds out of range [:5] with length 3") := by
  refine ⟨?_, rfl, rfl, rfl, by decide, by decide, by decide⟩
  rcases x with l | ⟨l, c⟩ | l
  · exact ⟨⟨0, 0, 0⟩,
      by simp [sliceStep, operandLen, operandCap, not_lt.mpr (Int.natCast_nonneg l)], rfl⟩
  · have hc : ((l : Int) ≤ (c : Int)) := by exact_mod_cast h
    exact ⟨⟨(l : Int), (l : Int) - (l : Int), (c : Int) - (l : Int)⟩,
      by simp [sliceStep, operandLen, operandCap, not_lt.mpr hc,
               not_lt.mpr (Int.natCast_nonneg l)], by simp⟩
  · exact ⟨⟨(l : Int), (l : Int) - (l : Int), (l : Int) - (l : Int)⟩,
      by simp [sliceStep, operandLen, operandCap, not_lt.mpr (Int.natCast_nonneg l)], by simp⟩

/-- Witness for C8's theorem at the concrete operand: a slice of length 2
and capacity 5 sliced as `x[len(x):]` yields a length-0 view. -/
theorem slice_bounds_empty_view_witness :
    ∃ v, sliceStep (.sliceOp 2 5) false (some (operandLen (.sliceOp 2 5))) none none
        = .ok v ∧ v.len = 0 :=
  (slice_bounds_empty_view (.sliceOp 2 5) (by decide)).1

/-- One entry of a select's `instr.States`: its direction and, for receive
cases, the zero value of the channel's element type
(`reflect.New(typ.Elem()).Elem()`). -/
structure SelCase where
  isRecv : Bool
  zeroV : GoValue
  deriving DecidableEq

/-- Directions of the native `reflect.SelectCase` list. -/
inductive NativeDir where
  | dflt
  | recv
  | send
  deriving DecidableEq

/-- The case list handed to `reflect.Select`: a default case is prepended
when the select is non-blocking, then the states in declaration order. -/
def buildCases (blocking : Bool) (states : List SelCase) : List NativeDir :=
  (if blocking then [] else [.dflt]) ++
    states.map (fun st => if st.isRecv then NativeDir.recv else NativeDir.send)

/-- The loop `for n, st := range instr.States` appending one value per
receive case: the chosen case with a successful receive gets the received
value, every other receive case gets its element type's zero value.  `n0`
is the running index. -/
def selectRecvsAux (chosen : Int) (recvV : GoValue) (recvOk : Bool) :
    Nat → List SelCase → List GoValue
  | _, [] => []
  | n, st :: rest =>
      if st.isRecv = true then
        (if (n : Int) = chosen ∧ recvOk = true then recvV else st.zeroV)
          :: selectRecvsAux chosen recvV recvOk (n + 1) rest
      else selectRecvsAux chosen recvV recvOk (n + 1) rest

/-- The per-receive value list of a select result. -/
def selectRecvs (states : List SelCase) (chosen : Int) (recvV : GoValue)
    (recvOk : Bool) : List GoValue :=
  selectRecvsAux chosen recvV recvOk 0 states

/-- The `*ssa.Select` step after the native `reflect.Select` returned
(`nativeChosen`, `recvV`, `recvOk`): in the non-blocking case the chosen
index is decremented through the prepend offset (the default case reports
-1), and the stored tuple is (chosen, recvOk, per-receive values). -/
def selectStep (blocking : Bool) (states : List SelCase)
    (nativeChosen : Nat) (recvV : GoValue) (recvOk : Bool) : List GoValue :=
  let chosen : Int := if blocking then (nativeChosen : Int) else (nativeChosen : Int) - 1
  GoValue.intV chosen :: GoValue.boolV recvOk :: selectRecvs states chosen recvV recvOk

/-- With a negative chosen index (the default branch) every receive case
contributes its zero value. -/
theorem selectRecvsAux_neg (ch : Int) (v : GoValue) (ok : Bool) (hch : ch < 0)
    (states : List SelCase) : ∀ n0 : Nat,
    selectRecvsAux ch v ok n0 states
      = (states.filter (fun st => st.isRecv)).map (fun st => st.zeroV) := by
  induction states with
  | nil => intro n0; rfl
  | cons st rest ih =>
    intro n0
    have hne : ¬ ((n0 : Int) = ch ∧ ok = true) := by
      rintro ⟨h1, -⟩
      omega
    by_cases hr : st.isRecv = true
    · simp [selectRecvsAux, hr, hne, ih]
    · simp [selectRecvsAux, hr, ih]

/-- The receive-value list has one entry per receive case. -/
theorem selectRecvsAux_length (ch : Int) (v : GoValue) (ok : Bool)
    (states : List SelCase) : ∀ n0 : Nat,
    (selectRecvsAux ch v ok n0 states).length
      = (states.filter (fun st => st.isRecv)).length := by
  induction states with
  | nil => intro n0; rfl
  | cons st rest ih =>
    intro n0
    by_cases hr : st.isRecv = true <;> simp [selectRecvsAux, hr, ih]

/-- The entry belonging to the receive case at declaration index `n` is the
received value when that case is the chosen one and the receive succeeded,
and the case's zero value otherwise. -/
theorem selectRecvsAux_get (ch : Int) (v : GoValue) (ok : Bool)
    (states : List SelCase) :
    ∀ (n0 n : Nat) (st : SelCase), states.get? n = some st → st.isRecv = true →
      (selectRecvsAux ch v ok n0 states).get?
          (((states.take n).filter (fun s => s.isRecv)).length)
        = some (if ((n0 + n : Nat) : Int) = ch ∧ ok = true then v else st.zeroV) := by
  induction states with
  | nil =>
    intro n0 n st h
    simp at h
  | cons st' rest ih =>
    intro n0 n st h hr
    cases n with
    | zero =>
      simp at h
      subst h
      simp [selectRecvsAux, hr]
    | succ n =>
      rw [List.get?_cons_succ] at h
      have h2 := ih (n0 + 1) n st h hr
      have h3 : (n0 + 1 + n : Nat) = n0 + (n + 1) := by omega
      rw [h3] at h2
      by_cases hr' : st'.isRecv = true
      · simpa [selectRecvsAux, hr'] using h2
      · simpa [selectRecvsAux, hr'] using h2

/-- C9: for a select instruction — when non-blocking a default case is
prepended to the native case list and the chosen index reported to the
program is the native index minus one (the default branch yields -1, and
then every receive case contributes its zero value); the stored result is
the tuple (chosen, recvOk, one value per receive case in declaration
order), where a receive case that was not chosen, or whose receive failed,
contributes the zero value of its channel's element type and the chosen
successful receive contributes the received value. -/
theorem select_step_shape (states : List SelCase) (nc : Nat) (v : GoValue)
    (ok : Bool) (blocking : Bool) :
    buildCases false states
      = NativeDir.dflt
          :: states.map (fun st => if st.isRecv then NativeDir.recv else NativeDir.send)
  ∧ selectStep blocking states nc v ok
      = GoValue.intV (if blocking then (nc : Int) else (nc : Int) - 1)
        :: GoValue.boolV ok
        :: selectRecvs states (if blocking then (nc : Int) else (nc : Int) - 1) v ok
  ∧ selectStep false states 0 v ok
      = GoValue.intV (-1) :: GoValue.boolV ok
        :: (states.filter (fun st => st.isRecv)).map (fun st => st.zeroV)
  ∧ (∀ ch : Int, (selectRecvs states ch v ok).length
      = (states.filter (fun st => st.isRecv)).length)
  ∧ (∀ (n : Nat) (st : SelCase) (ch : Int),
      states.get? n = some st → st.isRecv = true →
      (selectRecvs states ch v ok).get?
          (((states.take n).filter (fun s => s.isRecv)).length)
        = some (if (n : Int) = ch ∧ ok = true then v else st.zeroV)) := by
  refine ⟨rfl, by by_cases hb : blocking <;> simp [selectStep, hb], ?_, ?_, ?_⟩
  · have hz := selectRecvsAux_neg (-1) v ok (by norm_num) states 0
    simp [selectStep, selectRecvs]
    exact hz
  · intro ch
    exact selectRecvsAux_length ch v ok states 0
  · intro n st ch h hr
    have := selectRecvsAux_get ch v ok states 0 n st h hr
    simpa using this

/-- Witness for C9's theorem at a concrete select: a single receive case
with zero value 0, chosen (index 0) with a successful receive of 7,
stores 7 in the receive slot. -/
theorem select_step_shape_witness :
    (selectRecvs [⟨true, .intV 0⟩] 0 (.intV 7) true).get? 0 = some (.intV 7) := by
  have h := (select_step_shape [⟨true, .intV 0⟩] 0 (.intV 7) true true).2.2.2.2
      0 ⟨true, .intV 0⟩ 0 rfl rfl
  simpa using h

end GossaSpec
